import Mathlib

/-!
Shallow embedding of the geodesic calculation engine of `geocalc`
(`src/geomath.c`) and proofs about its specification.

Modelling conventions:

* C `double` values are modelled as real numbers (`ℝ`); rounding is not
  modelled, so every arithmetic identity below is exact.
* C library functions are translated to their exact mathematical
  counterparts: `sin`/`cos`/`tan`/`atan`/`asin` become `Real.sin` etc.,
  `sqrt` becomes `Real.sqrt`, and `fmod`/truncation are modelled explicitly
  (`cfmod`, `ctrunc`) with C's truncated-division semantics.
* `atan2` is defined by the usual quadrant case split, with
  `atan2 0 0 = 0` as in IEEE-754 — this is the value C's `atan2` returns
  for two zero arguments.
* A C function that reports failure through its `int` return value while
  writing results through pointers is modelled as a function that receives
  the previous contents of the output locations and returns the pair
  (status, output contents), so that "outputs left unwritten on error" is
  expressible.
* `karney_distance` returns `Option ℝ`: `none` models the deliberate
  `nan("")` ("did not converge") return value; every other return is
  `some`.
* The one place where the C code manufactures a NaN by accident rather
  than by design is `haversine`: `sqrt` of a negative argument is NaN and
  propagates through `atan2`, so `isnan(arc)` there is equivalent to one
  of the two square-root arguments being negative.  The embedding tests
  that condition directly (`arc_indeterminate`).
* The iteration loops (`karney_distance`, `karney_bearing`, `rand_pos`)
  are modelled with explicit fuel; `karney`'s C code carries its own fuel
  (`iter_limit = 100`), which the embedding reproduces exactly, while
  `rand_pos`'s unbounded rejection loop takes the fuel as a parameter and
  returns `none` when it is exhausted (the C code would still be looping).
  The pseudorandom source `drand48()` is modelled as an input stream
  `ℕ → ℝ`, consumed at increasing indices.
-/

noncomputable section

/-- Sphere radius in meters (`EARTH_RADIUS` in geomath.c). -/
def EARTH_RADIUS : ℝ := 6371000

/-- Half the great-circle circumference of the sphere, in meters.  The C
source writes the literal `20015086.79602057114243507385`, which is the
`double` rendering of π times the Earth radius; in the exact real-number
embedding we use the exact value. -/
def MAX_EARTH_DISTANCE : ℝ := EARTH_RADIUS * Real.pi

/-- Degree-to-radian conversion (`deg2rad` macro). -/
def deg2rad (a : ℝ) : ℝ := a * (Real.pi / 180)

/-- Radian-to-degree conversion (`rad2deg` macro). -/
def rad2deg (a : ℝ) : ℝ := a * (180 / Real.pi)

/-- Truncation toward zero, as C's conversion in `fmod`. -/
def ctrunc (r : ℝ) : ℤ := if r < 0 then ⌈r⌉ else ⌊r⌋

/-- C's `fmod`: remainder with the sign of the dividend,
`fmod(x,y) = x - y·trunc(x/y)`. -/
def cfmod (x y : ℝ) : ℝ := x - y * ctrunc (x / y)

/-- C's `atan2(y, x)`, with the IEEE convention `atan2 0 0 = 0`. -/
def atan2 (y x : ℝ) : ℝ :=
  if 0 < x then Real.arctan (y / x)
  else if x < 0 ∧ 0 ≤ y then Real.arctan (y / x) + Real.pi
  else if x < 0 then Real.arctan (y / x) - Real.pi
  else if 0 < y then Real.pi / 2
  else if y < 0 then -(Real.pi / 2)
  else 0

/-- Antipodality test with a 1e-10 degree tolerance (`are_antipodal`).
The C function returns 1 on the first matching case; as a proposition this
is the disjunction of the three cases. -/
abbrev are_antipodal (lat1 lon1 lat2 lon2 : ℝ) : Prop :=
  (|lat1 - 90| < 1e-10 ∧ |lat2 + 90| < 1e-10) ∨
  (|lat1 + 90| < 1e-10 ∧ |lat2 - 90| < 1e-10) ∨
  (|lat1 + lat2| < 1e-10 ∧ |abs (lon1 - lon2) - 180| < 1e-10)

/-- Longitude normalization (`normalize_longitude`).  Inputs with
`|lon| ≤ 180` are returned unchanged; others are reduced with `fmod` and
shifted into range. -/
def normalize_longitude (lon : ℝ) : ℝ :=
  if |lon| ≤ 180 then lon
  else
    let l := cfmod lon 360
    if 180 < l then l - 360
    else if l ≤ -180 then l + 360
    else l

/-- Antipode of a coordinate (`set_antipode`); the C function mutates the
pair in place, the embedding returns the new pair. -/
def set_antipode (p : ℝ × ℝ) : ℝ × ℝ :=
  let lat := -p.1
  if |lat| = 90 then (lat, 0)
  else (lat, normalize_longitude (p.2 + 180))

/-- Destination computation of `bearing_position` after its range check
has passed: pole nudge, spherical forward geodesic, longitude
normalization. -/
def bearing_position_calc (lat lon bearing_deg dist_m : ℝ) : ℝ × ℝ :=
  let lat_a := if |lat| = 90 then lat * (1 - 1e-9) else lat
  let lat_rad := deg2rad lat_a
  let lon_rad := deg2rad lon
  let bearing_rad := deg2rad bearing_deg
  let ang_dist := dist_m / EARTH_RADIUS
  let sin_lat := Real.sin lat_rad
  let cos_lat := Real.cos lat_rad
  let sin_ang_dist := Real.sin ang_dist
  let cos_ang_dist := Real.cos ang_dist
  let lat2_rad := Real.arcsin (sin_lat * cos_ang_dist
                               + cos_lat * sin_ang_dist * Real.cos bearing_rad)
  let lon2_rad := lon_rad
                  + atan2 (Real.sin bearing_rad * sin_ang_dist * cos_lat)
                          (cos_ang_dist - sin_lat * Real.sin lat2_rad)
  (rad2deg lat2_rad, normalize_longitude (rad2deg lon2_rad))

/-- Embedding of `bearing_position`.  `out` holds the previous contents of
the output locations `*new_lat, *new_lon`; the result is the returned
status together with the (possibly unchanged) contents. -/
def bearing_position (lat lon bearing_deg dist_m : ℝ) (out : ℝ × ℝ) :
    ℕ × (ℝ × ℝ) :=
  if 90 < |lat| ∨ 180 < |lon| ∨ bearing_deg < 0 ∨ 360 < bearing_deg then
    (1, out)
  else
    (0, bearing_position_calc lat lon bearing_deg dist_m)

/-- Haversine value `hav` computed by `haversine` for in-range inputs. -/
def havValue (lat1 lon1 lat2 lon2 : ℝ) : ℝ :=
  let lat1_rad := deg2rad lat1
  let lat2_rad := deg2rad lat2
  let delta_phi := deg2rad (lat2 - lat1)
  let delta_lambda := deg2rad (lon2 - lon1)
  let sin_delta_phi := Real.sin (delta_phi / 2)
  let sin_delta_lambda := Real.sin (delta_lambda / 2)
  sin_delta_phi * sin_delta_phi
    + Real.cos lat1_rad * Real.cos lat2_rad
      * sin_delta_lambda * sin_delta_lambda

/-- Condition under which the C expression
`2.0 * atan2(sqrt(hav), sqrt(1.0 - hav))` is NaN: exactly when one of the
square-root arguments is negative (`sqrt` of a negative operand is the
only NaN source, and `atan2` propagates it).  This is the embedding of
`isnan(arc)` in `haversine`. -/
abbrev arc_indeterminate (lat1 lon1 lat2 lon2 : ℝ) : Prop :=
  havValue lat1 lon1 lat2 lon2 < 0 ∨ 1 - havValue lat1 lon1 lat2 lon2 < 0

/-- Great-circle distance (`haversine`).  Returns `-1` for out-of-range
coordinates and `MAX_EARTH_DISTANCE` when the arc is indeterminate
(the `isnan(arc)` branch of the C code). -/
def haversine (lat1 lon1 lat2 lon2 : ℝ) : ℝ :=
  if 90 < |lat1| ∨ 90 < |lat2| ∨ 180 < |lon1| ∨ 180 < |lon2| then -1
  else if arc_indeterminate lat1 lon1 lat2 lon2 then MAX_EARTH_DISTANCE
  else
    let hav := havValue lat1 lon1 lat2 lon2
    let arc := 2 * atan2 (Real.sqrt hav) (Real.sqrt (1 - hav))
    EARTH_RADIUS * arc

/-- Spherical initial bearing (`initial_bearing`), with the sentinels
`-1` (range violation) and `-2` (antipodal or coincident). -/
def initial_bearing (lat1 lon1 lat2 lon2 : ℝ) : ℝ :=
  if 90 < |lat1| ∨ 90 < |lat2| ∨ 180 < |lon1| ∨ 180 < |lon2| then -1
  else if are_antipodal lat1 lon1 lat2 lon2 ∨ (lat1 = lat2 ∧ lon1 = lon2) then
    -2
  else
    let lat1_rad := deg2rad lat1
    let lat2_rad := deg2rad lat2
    let delta_lon := deg2rad (lon2 - lon1)
    let cos_lat1 := Real.cos lat1_rad
    let cos_lat2 := Real.cos lat2_rad
    let y := Real.sin delta_lon * cos_lat2
    let x := cos_lat1 * Real.sin lat2_rad
             - Real.sin lat1_rad * cos_lat2 * Real.cos delta_lon
    cfmod (rad2deg (atan2 y x) + 360) 360

/-- WGS84 semi-major axis (`a` in `karney_distance`). -/
def wgs_a : ℝ := 6378137

/-- WGS84 flattening (`f` in `karney_distance` / `karney_bearing`). -/
def wgs_f : ℝ := 1 / 298.257223563

/-- WGS84 semi-minor axis (`b = a·(1 − f)`). -/
def wgs_b : ℝ := wgs_a * (1 - wgs_f)

/-- Quantities of `karney_distance` / `karney_bearing` that are fixed
throughout the λ iteration: the initial longitude difference `L` and the
sines/cosines of the reduced latitudes `U1`, `U2`. -/
structure KCtx where
  L : ℝ
  sinU1 : ℝ
  cosU1 : ℝ
  sinU2 : ℝ
  cosU2 : ℝ

/-- Iteration context of `karney_distance`:
`L = deg2rad(lon2) - deg2rad(lon1)`, `Ui = atan((1-f)·tan(deg2rad lati))`. -/
def karneyCtx (lat1 lon1 lat2 lon2 : ℝ) : KCtx :=
  let L := deg2rad lon2 - deg2rad lon1
  let U1 := Real.arctan ((1 - wgs_f) * Real.tan (deg2rad lat1))
  let U2 := Real.arctan ((1 - wgs_f) * Real.tan (deg2rad lat2))
  ⟨L, Real.sin U1, Real.cos U1, Real.sin U2, Real.cos U2⟩

/-- Values computed by one body execution of the `karney_distance`
do-while loop. -/
structure KStep where
  sin_sigma : ℝ
  cos_sigma : ℝ
  sigma : ℝ
  sin_alpha : ℝ
  cos_sq_alpha : ℝ
  cos2_sigma_m : ℝ
  lambda' : ℝ

/-- One body execution of the `karney_distance` loop, from the current
value of λ.  The C `isnan(cos2_sigma_m)` repair fires exactly for the 0/0
case `cos_sq_alpha = 0 ∧ sinU1·sinU2 = 0` ("equatorial lines"), which the
embedding tests directly. -/
def kstep (c : KCtx) (lam : ℝ) : KStep :=
  let sin_lambda := Real.sin lam
  let cos_lambda := Real.cos lam
  let sin_sigma := Real.sqrt ((c.cosU2 * sin_lambda) * (c.cosU2 * sin_lambda)
                   + (c.cosU1 * c.sinU2 - c.sinU1 * c.cosU2 * cos_lambda)
                     * (c.cosU1 * c.sinU2 - c.sinU1 * c.cosU2 * cos_lambda))
  let cos_sigma := c.sinU1 * c.sinU2 + c.cosU1 * c.cosU2 * cos_lambda
  let sigma := atan2 sin_sigma cos_sigma
  let sin_alpha := c.cosU1 * c.cosU2 * sin_lambda / sin_sigma
  let cos_sq_alpha := 1 - sin_alpha * sin_alpha
  let cos2_sigma_m :=
    if cos_sq_alpha = 0 ∧ c.sinU1 * c.sinU2 = 0 then 0
    else cos_sigma - 2 * c.sinU1 * c.sinU2 / cos_sq_alpha
  let C := wgs_f / 16 * cos_sq_alpha * (4 + wgs_f * (4 - 3 * cos_sq_alpha))
  let lambda' := c.L + (1 - C) * wgs_f * sin_alpha
                       * (sigma + C * sin_sigma
                                  * (cos2_sigma_m
                                     + C * cos_sigma
                                       * (-1 + 2 * cos2_sigma_m
                                               * cos2_sigma_m)))
  ⟨sin_sigma, cos_sigma, sigma, sin_alpha, cos_sq_alpha, cos2_sigma_m,
   lambda'⟩

/-- Post-loop distance computation of `karney_distance` from the values of
the final loop body. -/
def kfinish (s : KStep) : ℝ :=
  let u_sq := s.cos_sq_alpha * (wgs_a * wgs_a - wgs_b * wgs_b)
              / (wgs_b * wgs_b)
  let A := 1 + u_sq / 16384
               * (4096 + u_sq * (-768 + u_sq * (320 - 175 * u_sq)))
  let B := u_sq / 1024
           * (256 + u_sq * (-128 + u_sq * (74 - 47 * u_sq)))
  let delta_sigma := B * s.sin_sigma
                     * (s.cos2_sigma_m
                        + B / 4 * (s.cos_sigma
                                   * (-1 + 2 * s.cos2_sigma_m
                                           * s.cos2_sigma_m)
                                   - B / 6 * s.cos2_sigma_m
                                     * (-3 + 4 * s.sin_sigma * s.sin_sigma)
                                     * (-3 + 4 * s.cos2_sigma_m
                                             * s.cos2_sigma_m)))
  wgs_b * A * (s.sigma - delta_sigma)

/-- The `karney_distance` do-while loop with explicit fuel.  Calling it
with fuel `n` allows at most `n` body executions, exactly as the C code's
`iter_limit = n`: a body whose new λ is within `1e-12` of the old one
converges and produces the distance; a coincident body (`sin_sigma = 0`)
returns 0; exhausting the fuel yields `none` (the `nan("")` return). -/
def karneyLoop (c : KCtx) : ℕ → ℝ → Option ℝ
  | 0, _ => none
  | fuel + 1, lam =>
    let s := kstep c lam
    if s.sin_sigma = 0 then some 0
    else if |s.lambda' - lam| ≤ 1e-12 then some (kfinish s)
    else karneyLoop c fuel s.lambda'

/-- Ellipsoidal distance (`karney_distance`).  `some (-1)` for
out-of-range coordinates, `some 0` for coincident points, `none` for the
non-convergence NaN, `some d` otherwise. -/
def karney_distance (lat1 lon1 lat2 lon2 : ℝ) : Option ℝ :=
  if 90 < |lat1| ∨ 90 < |lat2| ∨ 180 < |lon1| ∨ 180 < |lon2| then some (-1)
  else
    karneyLoop (karneyCtx lat1 lon1 lat2 lon2) 100
      (karneyCtx lat1 lon1 lat2 lon2).L

/-- Sequence of λ values produced by the `karney_distance` iteration,
starting from `λ₀ = L`. -/
def lamSeq (c : KCtx) : ℕ → ℝ
  | 0 => c.L
  | n + 1 => (kstep c (lamSeq c n)).lambda'

/-- The `karney_distance` loop leaves the loop at step `k` (counting body
executions from 0): either the coincident-points early return fires, or
the convergence test succeeds. -/
def kexit (c : KCtx) (k : ℕ) : Prop :=
  (kstep c (lamSeq c k)).sin_sigma = 0 ∨
  |lamSeq c (k + 1) - lamSeq c k| ≤ 1e-12

/-- Longitude difference wrapped into [-180, 180) as computed by
`karney_bearing`: `fmod((lon2 - lon1) + 540, 360) - 180`. -/
def dlon_wrap (lon1 lon2 : ℝ) : ℝ := cfmod ((lon2 - lon1) + 540) 360 - 180

/-- Values computed by one body execution of the `karney_bearing`
do-while loop; `sin_lambda`/`cos_lambda` are kept because the post-loop
bearing computation reads them. -/
structure KStepB where
  sin_lambda : ℝ
  cos_lambda : ℝ
  lambda' : ℝ

/-- One body execution of the `karney_bearing` loop.  It differs from the
distance loop body in that the `cos_sq_alpha = 0` repair is an explicit
test in the C source. -/
def kstepB (c : KCtx) (lam : ℝ) : KStepB :=
  let sin_lambda := Real.sin lam
  let cos_lambda := Real.cos lam
  let t1 := c.cosU2 * sin_lambda
  let t2 := c.cosU1 * c.sinU2 - c.sinU1 * c.cosU2 * cos_lambda
  let sin_sigma := Real.sqrt (t1 * t1 + t2 * t2)
  let cos_sigma := c.sinU1 * c.sinU2 + c.cosU1 * c.cosU2 * cos_lambda
  let sigma := atan2 sin_sigma cos_sigma
  let sin_alpha := c.cosU1 * c.cosU2 * sin_lambda / sin_sigma
  let cos_sq_alpha := 1 - sin_alpha * sin_alpha
  let cos2_sigma_m :=
    if cos_sq_alpha ≠ 0 then
      cos_sigma - 2 * c.sinU1 * c.sinU2 / cos_sq_alpha
    else 0
  let C := wgs_f / 16 * cos_sq_alpha * (4 + wgs_f * (4 - 3 * cos_sq_alpha))
  let lambda' := c.L + (1 - C) * wgs_f * sin_alpha
                       * (sigma + C * sin_sigma
                                  * (cos2_sigma_m
                                     + C * cos_sigma
                                       * (-1 + 2 * cos2_sigma_m
                                               * cos2_sigma_m)))
  ⟨sin_lambda, cos_lambda, lambda'⟩

/-- The `karney_bearing` do-while loop with explicit fuel (`iter_limit`):
convergence tolerance `1e-11`, non-convergence yields the sentinel `-2`,
convergence yields the bearing computed from the last body's
`sin_lambda`/`cos_lambda`. -/
def kbLoop (c : KCtx) : ℕ → ℝ → ℝ
  | 0, _ => -2
  | fuel + 1, lam =>
    let s := kstepB c lam
    if |s.lambda' - lam| ≤ 1e-11 then
      cfmod (rad2deg (atan2 (c.cosU2 * s.sin_lambda)
                            (c.cosU1 * c.sinU2
                             - c.sinU1 * c.cosU2 * s.cos_lambda)) + 360) 360
    else kbLoop c fuel s.lambda'

/-- Iteration context of `karney_bearing`: same reduced latitudes as
`karneyCtx`, but `L` is the wrapped longitude difference in radians. -/
def karneyBCtx (lat1 lon1 lat2 lon2 : ℝ) : KCtx :=
  let U1 := Real.arctan ((1 - wgs_f) * Real.tan (deg2rad lat1))
  let U2 := Real.arctan ((1 - wgs_f) * Real.tan (deg2rad lat2))
  ⟨deg2rad (dlon_wrap lon1 lon2),
   Real.sin U1, Real.cos U1, Real.sin U2, Real.cos U2⟩

/-- Ellipsoidal initial bearing (`karney_bearing`): `-1` for out-of-range
coordinates; `-2` for coincident (within 1e-10 degrees), same-pole,
antipodal, or non-converging inputs; the equatorial shortcut returns 90 or
270; otherwise the iterated bearing. -/
def karney_bearing (lat1 lon1 lat2 lon2 : ℝ) : ℝ :=
  if 90 < |lat1| ∨ 90 < |lat2| ∨ 180 < |lon1| ∨ 180 < |lon2| then -1
  else
    let dlon_deg := dlon_wrap lon1 lon2
    if |lat1 - lat2| < 1e-10 ∧ |dlon_deg| < 1e-10 then -2
    else if (|lat1 - 90| < 1e-10 ∧ |lat2 - 90| < 1e-10) ∨
            (|lat1 + 90| < 1e-10 ∧ |lat2 + 90| < 1e-10) then -2
    else if are_antipodal lat1 lon1 lat2 lon2 then -2
    else if |lat1| < 1e-13 ∧ |lat2| < 1e-13 then
      if 0 < dlon_deg then 90 else 270
    else kbLoop (karneyBCtx lat1 lon1 lat2 lon2) 100 (deg2rad dlon_deg)

/-- Route interpolation (`routepoint`): destination reached from the first
point following the initial bearing for the scaled haversine distance.
`out` holds the previous contents of `*next_lat, *next_lon`. -/
def routepoint (lat1 lon1 lat2 lon2 fracdist : ℝ) (out : ℝ × ℝ) :
    ℕ × (ℝ × ℝ) :=
  bearing_position lat1 lon1
    (initial_bearing lat1 lon1 lat2 lon2)
    (haversine lat1 lon1 lat2 lon2 * fracdist)
    out

/-- Whole-world branch of `rand_pos`: area-uniform random point from two
`drand48()` draws. -/
def wholeWorldPoint (u1 u2 : ℝ) : ℝ × ℝ :=
  (rad2deg (Real.arcsin (2 * u1 - 1)),
   rad2deg (u2 * 2 * Real.pi) - 180)

/-- Center and distance bounds of `rand_pos` after its two input
transformations. -/
structure RandTransformed where
  c_lat : ℝ
  c_lon : ℝ
  maxdist : ℝ
  mindist : ℝ

/-- Input transformations of `rand_pos`: a minimum-only constraint is
turned into a maximum constraint around the antipode, and swapped bounds
are put in order. -/
def randTransform (c_lat c_lon maxdist mindist : ℝ) : RandTransformed :=
  let t : RandTransformed :=
    if mindist ≠ 0 ∧ maxdist = 0 then
      let p := set_antipode (c_lat, c_lon)
      ⟨p.1, p.2, MAX_EARTH_DISTANCE - mindist, 0⟩
    else ⟨c_lat, c_lon, maxdist, mindist⟩
  if t.maxdist < t.mindist then ⟨t.c_lat, t.c_lon, t.mindist, t.maxdist⟩
  else t

/-- One draw of the `rand_pos` rejection loop from two `drand48()` values:
uniform bearing, square-root-scaled distance clamped to
`MAX_EARTH_DISTANCE`, forward position.  On `bearing_position` failure the
previous output contents survive, as in C. -/
def randAttempt (t : RandTransformed) (u1 u2 : ℝ) (prev : ℝ × ℝ) : ℝ × ℝ :=
  let rand_bear := u1 * 360
  let rand_dist0 := t.mindist + Real.sqrt u2 * (t.maxdist - t.mindist)
  let rand_dist := if MAX_EARTH_DISTANCE < rand_dist0 then MAX_EARTH_DISTANCE
                   else rand_dist0
  (bearing_position t.c_lat t.c_lon rand_bear rand_dist prev).2

/-- The `rand_pos` do-while rejection loop with explicit fuel: draw an
attempt, accept it unless `mindist ≠ maxdist` and the realized haversine
distance falls outside `[mindist, maxdist]`. -/
def randPosLoop (stream : ℕ → ℝ) (t : RandTransformed) :
    ℕ → ℕ → ℝ × ℝ → Option (ℝ × ℝ)
  | 0, _, _ => none
  | fuel + 1, i, prev =>
    let p := randAttempt t (stream (2 * i)) (stream (2 * i + 1)) prev
    let result := haversine t.c_lat t.c_lon p.1 p.2
    if t.mindist ≠ t.maxdist ∧ (result < t.mindist ∨ t.maxdist < result) then
      randPosLoop stream t fuel (i + 1) p
    else some p

/-- Random position sampler (`rand_pos`).  `stream` is the `drand48()`
source, `fuel` bounds the rejection loop (the C loop is unbounded; `none`
means the C code would still be iterating), `prev` is the initial contents
of the output locations. -/
def rand_pos (stream : ℕ → ℝ) (fuel : ℕ)
    (c_lat c_lon maxdist mindist : ℝ) (prev : ℝ × ℝ) : Option (ℝ × ℝ) :=
  if 90 < c_lat ∨ (maxdist = 0 ∧ mindist = 0) then
    some (wholeWorldPoint (stream 0) (stream 1))
  else
    randPosLoop stream (randTransform c_lat c_lon maxdist mindist) fuel 0 prev

/-- Every point the sampler returns realizes a haversine distance from the
transformed center within the transformed bounds. -/
def annulusOK (o : Option (ℝ × ℝ)) (t : RandTransformed) : Prop :=
  ∀ p, o = some p →
    t.mindist ≤ haversine t.c_lat t.c_lon p.1 p.2 ∧
    haversine t.c_lat t.c_lon p.1 p.2 ≤ t.maxdist

end

/-! Helper lemmas about truncation and `fmod`. -/

theorem ctrunc_of_nonneg {r : ℝ} (h : 0 ≤ r) : ctrunc r = ⌊r⌋ :=
  if_neg (not_lt.mpr h)

theorem ctrunc_of_neg {r : ℝ} (h : r < 0) : ctrunc r = ⌈r⌉ := if_pos h

theorem cfmod_eq_fract {x y : ℝ} (hx : 0 ≤ x) (hy : 0 < y) :
    cfmod x y = y * Int.fract (x / y) := by
  have hq : (0 : ℝ) ≤ x / y := div_nonneg hx hy.le
  unfold cfmod
  rw [ctrunc_of_nonneg hq, Int.fract]
  have hxy : y * (x / y) = x := mul_div_cancel₀ x hy.ne'
  linarith [hxy, mul_sub y (x / y) ((⌊x / y⌋ : ℤ) : ℝ)]

theorem cfmod_nonneg_lt {x y : ℝ} (hx : 0 ≤ x) (hy : 0 < y) :
    0 ≤ cfmod x y ∧ cfmod x y < y := by
  rw [cfmod_eq_fract hx hy]
  constructor
  · exact mul_nonneg hy.le (Int.fract_nonneg _)
  · exact (mul_lt_iff_lt_one_right hy).mpr (Int.fract_lt_one _)

theorem cfmod_bounds {x : ℝ} (y : ℝ) (hy : 0 < y) :
    -y < cfmod x y ∧ cfmod x y < y := by
  rcases le_or_lt 0 x with hx | hx
  · obtain ⟨h0, h1⟩ := cfmod_nonneg_lt hx hy
    exact ⟨by linarith, h1⟩
  · have hq : x / y < 0 := div_neg_of_neg_of_pos hx hy
    unfold cfmod
    rw [ctrunc_of_neg hq]
    have h1 : x / y ≤ (⌈x / y⌉ : ℝ) := Int.le_ceil _
    have h2 : (⌈x / y⌉ : ℝ) < x / y + 1 := Int.ceil_lt_add_one _
    have hxy : y * (x / y) = x := mul_div_cancel₀ x hy.ne'
    constructor
    · nlinarith
    · nlinarith

/-! Helper lemmas about `normalize_longitude`. -/

theorem normalize_longitude_of_abs_le {lon : ℝ} (h : |lon| ≤ 180) :
    normalize_longitude lon = lon := by
  unfold normalize_longitude
  exact if_pos h

theorem normalize_longitude_mem (lon : ℝ) :
    -180 ≤ normalize_longitude lon ∧ normalize_longitude lon ≤ 180 := by
  unfold normalize_longitude
  obtain ⟨hl, hr⟩ := cfmod_bounds (x := lon) 360 (by norm_num)
  rcases le_or_lt |lon| 180 with h1 | h1
  · rw [if_pos h1]
    exact abs_le.mp h1
  · rw [if_neg (not_le.mpr h1)]
    dsimp only
    split_ifs with h2 h3 <;> constructor <;> linarith

/-- C4 (corrected claim): `normalize_longitude` maps every input into the
closed interval [-180, 180] (not the half-open (-180, 180]: the input
`-180` is returned unchanged), and it is idempotent. -/
theorem normalize_longitude_spec (lon : ℝ) :
    (-180 ≤ normalize_longitude lon ∧ normalize_longitude lon ≤ 180) ∧
    normalize_longitude (normalize_longitude lon) = normalize_longitude lon := by
  refine ⟨normalize_longitude_mem lon, ?_⟩
  exact normalize_longitude_of_abs_le (abs_le.mpr (normalize_longitude_mem lon))

/-- C4 (counterexample to the claim as stated): on the input `-180` the
function returns `-180`, which does not lie in the claimed half-open
interval (-180, 180]. -/
theorem normalize_longitude_claim_cex :
    normalize_longitude (-180) = -180 ∧
    ¬(-180 < normalize_longitude (-180) ∧ normalize_longitude (-180) ≤ 180) := by
  have h : normalize_longitude (-180 : ℝ) = -180 :=
    normalize_longitude_of_abs_le (by rw [abs_of_nonpos] <;> norm_num)
  refine ⟨h, ?_⟩
  rw [h]
  norm_num

/-- C10: `are_antipodal` is symmetric in its two points: the opposite-pole
cases swap places and the symmetric case is invariant. -/
theorem are_antipodal_symm (lat1 lon1 lat2 lon2 : ℝ) :
    are_antipodal lat1 lon1 lat2 lon2 ↔ are_antipodal lat2 lon2 lat1 lon1 := by
  unfold are_antipodal
  rw [abs_sub_comm lon1 lon2, add_comm lat1 lat2]
  tauto

/-- C8: when `bearing_position` rejects its input (latitude beyond ±90,
longitude beyond ±180, or bearing outside [0, 360]), it returns status 1
and the output locations keep their previous contents. -/
theorem bearing_position_reject (lat lon bearing_deg dist_m : ℝ)
    (out : ℝ × ℝ)
    (h : 90 < |lat| ∨ 180 < |lon| ∨ bearing_deg < 0 ∨ 360 < bearing_deg) :
    bearing_position lat lon bearing_deg dist_m out = (1, out) := by
  unfold bearing_position
  exact if_pos h

/-- C8 witness: a concrete rejected call leaves the previous output
contents `(3, 4)` in place. -/
theorem bearing_position_reject_witness :
    bearing_position 91 10 45 1000 (3, 4) = (1, (3, 4)) :=
  bearing_position_reject 91 10 45 1000 (3, 4)
    (by left; rw [abs_of_pos] <;> norm_num)

/-! Helper lemma for the antipode involution: normalizing `lon + 180` for
an already-normalized `lon`. -/

theorem normalize_longitude_add180 {lon : ℝ} (h1 : -180 < lon)
    (h2 : lon ≤ 180) :
    normalize_longitude (lon + 180) =
      if lon ≤ 0 then lon + 180 else lon - 180 := by
  rcases le_or_lt lon 0 with hle | hpos
  · rw [if_pos hle]
    exact normalize_longitude_of_abs_le (abs_le.mpr ⟨by linarith, by linarith⟩)
  · rw [if_neg (not_le.mpr hpos)]
    have habs : ¬|lon + 180| ≤ 180 := by
      rw [abs_of_pos (by linarith)]
      linarith
    unfold normalize_longitude
    rw [if_neg habs]
    dsimp only
    rcases lt_or_eq_of_le h2 with hlt | heq
    · have hfl : ⌊(lon + 180) / 360⌋ = 0 := by
        rw [Int.floor_eq_zero_iff]
        exact ⟨div_nonneg (by linarith) (by norm_num),
               (div_lt_one (by norm_num)).mpr (by linarith)⟩
      have hc : cfmod (lon + 180) 360 = lon + 180 := by
        unfold cfmod
        rw [ctrunc_of_nonneg (div_nonneg (by linarith) (by norm_num)), hfl]
        norm_num
      rw [hc, if_pos (by linarith : (180 : ℝ) < lon + 180)]
      ring
    · subst heq
      have hc : cfmod ((180 : ℝ) + 180) 360 = 0 := by
        unfold cfmod ctrunc
        norm_num
      rw [hc]
      norm_num

/-- C5: `set_antipode` negates the latitude; at a resulting pole the
longitude collapses to 0; and for non-polar latitude and normalized
longitude in (-180, 180] applying it twice reproduces the original
coordinate exactly. -/
theorem set_antipode_spec (lat lon : ℝ) :
    (set_antipode (lat, lon)).1 = -lat ∧
    (|lat| = 90 → (set_antipode (lat, lon)).2 = 0) ∧
    (|lat| < 90 → -180 < lon → lon ≤ 180 →
      set_antipode (set_antipode (lat, lon)) = (lat, lon)) := by
  refine ⟨?_, ?_, ?_⟩
  · unfold set_antipode
    dsimp only
    split_ifs <;> rfl
  · intro h
    unfold set_antipode
    dsimp only
    rw [if_pos (by rw [abs_neg]; exact h)]
  · intro hlat hl1 hl2
    have hne : |(-lat)| ≠ 90 := by
      rw [abs_neg]
      exact ne_of_lt hlat
    have e1 : set_antipode (lat, lon) = (-lat, normalize_longitude (lon + 180)) := by
      unfold set_antipode
      dsimp only
      rw [if_neg hne]
    rw [e1, normalize_longitude_add180 hl1 hl2]
    rcases le_or_lt lon 0 with hc | hc
    · rw [if_pos hc]
      unfold set_antipode
      dsimp only
      rw [neg_neg, if_neg (ne_of_lt hlat),
          normalize_longitude_add180 (by linarith) (by linarith),
          if_neg (by linarith : ¬(lon + 180 ≤ 0))]
      norm_num
    · rw [if_neg (not_le.mpr hc)]
      unfold set_antipode
      dsimp only
      rw [neg_neg, if_neg (ne_of_lt hlat),
          normalize_longitude_add180 (by linarith) (by linarith),
          if_pos (by linarith : lon - 180 ≤ 0)]
      norm_num

/-- C5 witness: the antipode of the antipode of (45, 30) is (45, 30). -/
theorem set_antipode_spec_witness :
    set_antipode (set_antipode (45, 30)) = (45, 30) :=
  (set_antipode_spec 45 30).2.2 (by rw [abs_of_pos] <;> norm_num)
    (by norm_num) (by norm_num)

/-! Helper lemma: the wrapped longitude difference of coincident
longitudes is zero. -/

theorem dlon_wrap_self (lon : ℝ) : dlon_wrap lon lon = 0 := by
  unfold dlon_wrap
  have hfl : ⌊(540 : ℝ) / 360⌋ = 1 := by
    rw [Int.floor_eq_iff]
    norm_num
  have hc : cfmod (lon - lon + 540) 360 = 180 := by
    rw [sub_self, zero_add]
    unfold cfmod
    rw [ctrunc_of_nonneg (by norm_num), hfl]
    norm_num
  rw [hc]
  norm_num

/-- C3: both bearing variants return the range sentinel `-1` for
out-of-range coordinates; for in-range coordinates both return the
undefined sentinel `-2` on antipodal or (exactly) coincident pairs, and
`karney_bearing` additionally on same-pole pairs — all decided by the
screens that precede the iteration loop. -/
theorem bearing_sentinels (lat1 lon1 lat2 lon2 : ℝ) :
    ((90 < |lat1| ∨ 90 < |lat2| ∨ 180 < |lon1| ∨ 180 < |lon2|) →
      initial_bearing lat1 lon1 lat2 lon2 = -1 ∧
      karney_bearing lat1 lon1 lat2 lon2 = -1) ∧
    (|lat1| ≤ 90 → |lat2| ≤ 90 → |lon1| ≤ 180 → |lon2| ≤ 180 →
      ((are_antipodal lat1 lon1 lat2 lon2 ∨ (lat1 = lat2 ∧ lon1 = lon2)) →
        initial_bearing lat1 lon1 lat2 lon2 = -2) ∧
      ((are_antipodal lat1 lon1 lat2 lon2 ∨ (lat1 = lat2 ∧ lon1 = lon2) ∨
        ((|lat1 - 90| < 1e-10 ∧ |lat2 - 90| < 1e-10) ∨
         (|lat1 + 90| < 1e-10 ∧ |lat2 + 90| < 1e-10))) →
        karney_bearing lat1 lon1 lat2 lon2 = -2)) := by
  constructor
  · intro h
    constructor
    · unfold initial_bearing
      rw [if_pos h]
    · unfold karney_bearing
      rw [if_pos h]
  · intro ha1 ha2 ho1 ho2
    have hr : ¬(90 < |lat1| ∨ 90 < |lat2| ∨ 180 < |lon1| ∨ 180 < |lon2|) := by
      push_neg
      exact ⟨ha1, ha2, ho1, ho2⟩
    constructor
    · intro h
      unfold initial_bearing
      rw [if_neg hr, if_pos h]
    · intro h
      unfold karney_bearing
      rw [if_neg hr]
      dsimp only
      split_ifs with h1 h2 h3 h4 h5
      · rfl
      · rfl
      · rfl
      · exfalso
        rcases h with hA | hC | hSP
        · exact h3 hA
        · exact h1 ⟨by rw [hC.1, sub_self, abs_zero]; norm_num,
                    by rw [hC.2, dlon_wrap_self, abs_zero]; norm_num⟩
        · exact h2 hSP
      · exfalso
        rcases h with hA | hC | hSP
        · exact h3 hA
        · exact h1 ⟨by rw [hC.1, sub_self, abs_zero]; norm_num,
                    by rw [hC.2, dlon_wrap_self, abs_zero]; norm_num⟩
        · exact h2 hSP
      · exfalso
        rcases h with hA | hC | hSP
        · exact h3 hA
        · exact h1 ⟨by rw [hC.1, sub_self, abs_zero]; norm_num,
                    by rw [hC.2, dlon_wrap_self, abs_zero]; norm_num⟩
        · exact h2 hSP

/-- C3 witness: an out-of-range latitude yields the range sentinel from
both variants. -/
theorem bearing_sentinels_witness :
    initial_bearing 91 0 0 0 = -1 ∧ karney_bearing 91 0 0 0 = -1 :=
  (bearing_sentinels 91 0 0 0).1 (by left; rw [abs_of_pos] <;> norm_num)

/-- C9: for in-range, non-coincident, non-antipodal pairs with both
latitudes within 1e-13 of the equator, `karney_bearing` takes the
equatorial shortcut: exactly 90 when the wrapped longitude difference is
positive and 270 otherwise, before the iteration loop is reached. -/
theorem karney_bearing_equatorial (lat1 lon1 lat2 lon2 : ℝ)
    (ho1 : |lon1| ≤ 180) (ho2 : |lon2| ≤ 180)
    (he1 : |lat1| < 1e-13) (he2 : |lat2| < 1e-13)
    (hnc : ¬(|lat1 - lat2| < 1e-10 ∧ |dlon_wrap lon1 lon2| < 1e-10))
    (hna : ¬are_antipodal lat1 lon1 lat2 lon2) :
    karney_bearing lat1 lon1 lat2 lon2 =
      if 0 < dlon_wrap lon1 lon2 then 90 else 270 := by
  obtain ⟨he1l, he1r⟩ := abs_lt.mp he1
  obtain ⟨he2l, he2r⟩ := abs_lt.mp he2
  have hr : ¬(90 < |lat1| ∨ 90 < |lat2| ∨ 180 < |lon1| ∨ 180 < |lon2|) := by
    push_neg
    exact ⟨abs_le.mpr ⟨by linarith, by linarith⟩,
           abs_le.mpr ⟨by linarith, by linarith⟩, ho1, ho2⟩
  have hsp : ¬((|lat1 - 90| < 1e-10 ∧ |lat2 - 90| < 1e-10) ∨
               (|lat1 + 90| < 1e-10 ∧ |lat2 + 90| < 1e-10)) := by
    rintro (⟨hp, _⟩ | ⟨hp, _⟩)
    · obtain ⟨hpl, hpr⟩ := abs_lt.mp hp
      linarith
    · obtain ⟨hpl, hpr⟩ := abs_lt.mp hp
      linarith
  unfold karney_bearing
  rw [if_neg hr]
  dsimp only
  rw [if_neg hnc, if_neg hsp, if_neg hna, if_pos ⟨he1, he2⟩]

/-- C9 witness: from (0, 0) to (0, 90) the wrapped longitude difference
is 90 > 0, so the shortcut returns exactly 90. -/
theorem karney_bearing_equatorial_witness : karney_bearing 0 0 0 90 = 90 := by
  have habs1 : |(0 : ℝ) - 90| = 90 := by
    rw [abs_of_nonpos] <;> norm_num
  have habs2 : |(0 : ℝ) + 90| = 90 := by
    rw [abs_of_nonneg] <;> norm_num
  have habs3 : |(90 : ℝ) - 180| = 90 := by
    rw [abs_of_nonpos] <;> norm_num
  have hfl : ⌊((90 : ℝ) - 0 + 540) / 360⌋ = 1 := by
    rw [Int.floor_eq_iff]
    norm_num
  have hd : dlon_wrap 0 90 = 90 := by
    unfold dlon_wrap cfmod
    rw [ctrunc_of_nonneg (by norm_num), hfl]
    norm_num
  have h := karney_bearing_equatorial 0 0 0 90
    (by rw [abs_zero]; norm_num) (by rw [abs_of_nonneg] <;> norm_num)
    (by rw [abs_zero]; norm_num) (by rw [abs_zero]; norm_num)
    (by
      rintro ⟨-, h⟩
      rw [hd] at h
      rw [abs_of_nonneg (by norm_num)] at h
      norm_num at h)
    (by
      rintro (⟨h, -⟩ | ⟨h, -⟩ | ⟨-, h⟩)
      · rw [habs1] at h
        norm_num at h
      · rw [habs2] at h
        norm_num at h
      · rw [habs1] at h
        rw [habs3] at h
        norm_num at h)
  rw [hd] at h
  rw [if_pos (by norm_num : (0 : ℝ) < 90)] at h
  exact h

/-! The λ-iteration of `karney_distance`: relating the fuelled loop to the
abstract λ sequence. -/

theorem karneyLoop_none_iff (c : KCtx) :
    ∀ n k : ℕ, (karneyLoop c n (lamSeq c k) = none ↔
      ∀ j < n, ¬kexit c (k + j)) := by
  intro n
  induction n with
  | zero =>
    intro k
    simp [karneyLoop]
  | succ m ih =>
    intro k
    have hlam : (kstep c (lamSeq c k)).lambda' = lamSeq c (k + 1) := rfl
    simp only [karneyLoop]
    by_cases h0 : (kstep c (lamSeq c k)).sin_sigma = 0
    · rw [if_pos h0]
      constructor
      · intro h
        exact (Option.some_ne_none _ h).elim
      · intro hall
        have hk := hall 0 (Nat.succ_pos m)
        rw [Nat.add_zero] at hk
        exact absurd (Or.inl h0 : kexit c k) hk
    · rw [if_neg h0]
      by_cases h1 : |(kstep c (lamSeq c k)).lambda' - lamSeq c k| ≤ 1e-12
      · rw [if_pos h1]
        constructor
        · intro h
          exact (Option.some_ne_none _ h).elim
        · intro hall
          have hk := hall 0 (Nat.succ_pos m)
          rw [Nat.add_zero] at hk
          exact absurd (Or.inr (hlam ▸ h1) : kexit c k) hk
      · rw [if_neg h1, hlam, ih (k + 1)]
        constructor
        · intro hall j hj
          cases j with
          | zero =>
            rw [Nat.add_zero]
            rintro (hx | hx)
            · exact h0 hx
            · exact h1 (hlam.symm ▸ hx)
          | succ i =>
            have hi := hall i (by omega)
            rw [show k + (i + 1) = k + 1 + i from by omega]
            exact hi
        · intro hall j hj
          have hj1 := hall (j + 1) (by omega)
          rw [show k + (j + 1) = k + 1 + j from by omega] at hj1
          exact hj1

/-- C2: for in-range inputs, `karney_distance` returns its
did-not-converge sentinel (the `nan("")`, modelled as `none`) exactly when
none of the first 100 executions of the λ update body exits the loop —
neither through the coincident-points return nor through the `≤ 1e-12`
convergence test.  In particular a converged or coincident run always
yields a `some` value and an exhausted cap never does. -/
theorem karney_distance_cap (lat1 lon1 lat2 lon2 : ℝ)
    (h1 : |lat1| ≤ 90) (h2 : |lat2| ≤ 90)
    (h3 : |lon1| ≤ 180) (h4 : |lon2| ≤ 180) :
    (karney_distance lat1 lon1 lat2 lon2 = none ↔
      ∀ k < 100, ¬kexit (karneyCtx lat1 lon1 lat2 lon2) k) := by
  unfold karney_distance
  rw [if_neg (by push_neg; exact ⟨h1, h2, h3, h4⟩)]
  have h := karneyLoop_none_iff (karneyCtx lat1 lon1 lat2 lon2) 100 0
  simpa using h

/-- C2 witness: the characterization instantiated at the origin pair. -/
theorem karney_distance_cap_witness :
    (karney_distance 0 0 0 0 = none ↔
      ∀ k < 100, ¬kexit (karneyCtx 0 0 0 0) k) :=
  karney_distance_cap 0 0 0 0 (by simp) (by simp) (by simp) (by simp)

/-! The `rand_pos` rejection loop only accepts in-bounds points. -/

theorem randPosLoop_annulus (stream : ℕ → ℝ) (t : RandTransformed)
    (hne : t.mindist ≠ t.maxdist) :
    ∀ (fuel i : ℕ) (prev : ℝ × ℝ),
      annulusOK (randPosLoop stream t fuel i prev) t := by
  intro fuel
  induction fuel with
  | zero =>
    intro i prev p hp
    simp [randPosLoop] at hp
  | succ m ih =>
    intro i prev p hp
    simp only [randPosLoop] at hp
    set a := randAttempt t (stream (2 * i)) (stream (2 * i + 1)) prev with ha
    by_cases hg : t.mindist ≠ t.maxdist ∧
        (haversine t.c_lat t.c_lon a.1 a.2 < t.mindist ∨
         t.maxdist < haversine t.c_lat t.c_lon a.1 a.2)
    · rw [if_pos hg] at hp
      exact ih (i + 1) a p hp
    · rw [if_neg hg] at hp
      obtain rfl := Option.some.inj hp
      have hnr := not_and.mp hg hne
      push_neg at hnr
      exact ⟨hnr.1, hnr.2⟩

/-- C6: with an in-range center and not both distances zero, every point
the sampler returns realizes a haversine distance from the transformed
center within the transformed bounds (when those differ), and with equal
bounds the rejection test is skipped, so the very first draw is returned. -/
theorem rand_pos_spec (stream : ℕ → ℝ) (fuel : ℕ)
    (c_lat c_lon maxdist mindist : ℝ) (prev : ℝ × ℝ)
    (h1 : c_lat ≤ 90) (h2 : ¬(maxdist = 0 ∧ mindist = 0)) :
    ((randTransform c_lat c_lon maxdist mindist).mindist ≠
        (randTransform c_lat c_lon maxdist mindist).maxdist →
      annulusOK (rand_pos stream fuel c_lat c_lon maxdist mindist prev)
        (randTransform c_lat c_lon maxdist mindist)) ∧
    ((randTransform c_lat c_lon maxdist mindist).mindist =
        (randTransform c_lat c_lon maxdist mindist).maxdist →
      rand_pos stream (fuel + 1) c_lat c_lon maxdist mindist prev =
        some (randAttempt (randTransform c_lat c_lon maxdist mindist)
          (stream 0) (stream 1) prev)) := by
  have hw : ¬(90 < c_lat ∨ (maxdist = 0 ∧ mindist = 0)) := by
    rintro (hx | hx)
    · exact absurd hx (not_lt.mpr h1)
    · exact h2 hx
  constructor
  · intro hne
    unfold rand_pos
    rw [if_neg hw]
    exact randPosLoop_annulus stream _ hne fuel 0 prev
  · intro heq
    unfold rand_pos
    rw [if_neg hw]
    simp only [randPosLoop]
    rw [if_neg (by rintro ⟨hx, -⟩; exact hx heq)]

/-- C6 witness: center (12, 34) with bounds [0, 1]; the transformed bounds
are again [0, 1], so every returned point is at haversine distance at most
1 meter from the center. -/
theorem rand_pos_spec_witness :
    annulusOK (rand_pos (fun _ => 1 / 2) 5 12 34 1 0 (0, 0))
      (randTransform 12 34 1 0) :=
  (rand_pos_spec (fun _ => 1 / 2) 5 12 34 1 0 (0, 0) (by norm_num)
      (by norm_num)).1 (by norm_num [randTransform])

/-! Range of `atan2`. -/

theorem arctan_nonpos_of_nonpos {z : ℝ} (h : z ≤ 0) : Real.arctan z ≤ 0 := by
  have := Real.arctan_strictMono.monotone h
  rwa [Real.arctan_zero] at this

theorem arctan_nonneg_of_nonneg {z : ℝ} (h : 0 ≤ z) : 0 ≤ Real.arctan z := by
  have := Real.arctan_strictMono.monotone h
  rwa [Real.arctan_zero] at this

theorem atan2_mem (y x : ℝ) : -Real.pi < atan2 y x ∧ atan2 y x ≤ Real.pi := by
  have hpi : 0 < Real.pi := Real.pi_pos
  unfold atan2
  split_ifs with h1 h2 h3 h4 h5
  · exact ⟨by linarith [Real.neg_pi_div_two_lt_arctan (y / x)],
           by linarith [Real.arctan_lt_pi_div_two (y / x)]⟩
  · have hyx : y / x ≤ 0 := div_nonpos_of_nonneg_of_nonpos h2.2 h2.1.le
    exact ⟨by linarith [Real.neg_pi_div_two_lt_arctan (y / x)],
           by linarith [arctan_nonpos_of_nonpos hyx]⟩
  · have hy : y < 0 := by
      by_contra hy
      exact h2 ⟨h3, not_lt.mp hy⟩
    have hyx : 0 < y / x := div_pos_iff.mpr (Or.inr ⟨hy, h3⟩)
    have hpos : 0 < Real.arctan (y / x) := by
      have := Real.arctan_strictMono hyx
      rwa [Real.arctan_zero] at this
    exact ⟨by linarith,
           by linarith [Real.arctan_lt_pi_div_two (y / x)]⟩
  · exact ⟨by linarith, by linarith⟩
  · exact ⟨by linarith, by linarith⟩
  · exact ⟨by linarith, by linarith⟩

theorem atan2_nonneg_le (y x : ℝ) (hy : 0 ≤ y) (hx : 0 ≤ x) :
    0 ≤ atan2 y x ∧ atan2 y x ≤ Real.pi / 2 := by
  have hpi : 0 < Real.pi := Real.pi_pos
  unfold atan2
  split_ifs with h1 h2 h3 h4 h5
  · exact ⟨arctan_nonneg_of_nonneg (div_nonneg hy h1.le),
           (Real.arctan_lt_pi_div_two (y / x)).le⟩
  · exact absurd h2.1 (not_lt.mpr hx)
  · exact absurd h3 (not_lt.mpr hx)
  · exact ⟨by linarith, le_refl _⟩
  · exact absurd h5 (not_lt.mpr hy)
  · exact ⟨le_refl _, by linarith⟩

/-- C1: `haversine` returns the invalid-range sentinel `-1` exactly on the
range check; for in-range inputs the result is always a well-defined
distance in `[0, MAX_EARTH_DISTANCE]` (never a NaN), the indeterminate-arc
branch substitutes `MAX_EARTH_DISTANCE`, and the antipodal pole-to-pole
query `haversine 90 0 (-90) 0` evaluates to exactly
`MAX_EARTH_DISTANCE`. -/
theorem haversine_spec (lat1 lon1 lat2 lon2 : ℝ) :
    ((90 < |lat1| ∨ 90 < |lat2| ∨ 180 < |lon1| ∨ 180 < |lon2|) →
      haversine lat1 lon1 lat2 lon2 = -1) ∧
    (¬(90 < |lat1| ∨ 90 < |lat2| ∨ 180 < |lon1| ∨ 180 < |lon2|) →
      (0 ≤ haversine lat1 lon1 lat2 lon2 ∧
       haversine lat1 lon1 lat2 lon2 ≤ MAX_EARTH_DISTANCE) ∧
      (arc_indeterminate lat1 lon1 lat2 lon2 →
        haversine lat1 lon1 lat2 lon2 = MAX_EARTH_DISTANCE)) ∧
    haversine 90 0 (-90) 0 = MAX_EARTH_DISTANCE := by
  have hpi : 0 < Real.pi := Real.pi_pos
  have hE : (0 : ℝ) ≤ EARTH_RADIUS := by
    unfold EARTH_RADIUS
    norm_num
  refine ⟨fun h => ?_, fun h => ⟨?_, fun hind => ?_⟩, ?_⟩
  · unfold haversine
    rw [if_pos h]
  · unfold haversine
    rw [if_neg h]
    by_cases hind : arc_indeterminate lat1 lon1 lat2 lon2
    · rw [if_pos hind]
      constructor
      · unfold MAX_EARTH_DISTANCE
        positivity
      · exact le_refl _
    · rw [if_neg hind]
      dsimp only
      obtain ⟨hl, hr⟩ := atan2_nonneg_le
        (Real.sqrt (havValue lat1 lon1 lat2 lon2))
        (Real.sqrt (1 - havValue lat1 lon1 lat2 lon2))
        (Real.sqrt_nonneg _) (Real.sqrt_nonneg _)
      constructor
      · exact mul_nonneg hE (by linarith)
      · unfold MAX_EARTH_DISTANCE
        exact mul_le_mul_of_nonneg_left (by linarith) hE
  · unfold haversine
    rw [if_neg h, if_pos hind]
  · have h90 : |(90 : ℝ)| = 90 := abs_of_nonneg (by norm_num)
    have h90n : |(-90 : ℝ)| = 90 := by
      rw [abs_neg]
      exact h90
    have h0 : |(0 : ℝ)| = 0 := abs_zero
    have hrange : ¬(90 < |(90 : ℝ)| ∨ 90 < |(-90 : ℝ)| ∨
        180 < |(0 : ℝ)| ∨ 180 < |(0 : ℝ)|) := by
      rw [h90, h90n, h0]
      push_neg
      norm_num
    have hhav : havValue 90 0 (-90) 0 = 1 := by
      unfold havValue
      dsimp only
      have e1 : deg2rad ((-90 : ℝ) - 90) / 2 = -(Real.pi / 2) := by
        unfold deg2rad
        field_simp
        ring
      have e2 : deg2rad ((0 : ℝ) - 0) / 2 = 0 := by
        unfold deg2rad
        norm_num
      have e3 : deg2rad (90 : ℝ) = Real.pi / 2 := by
        unfold deg2rad
        field_simp
        ring
      have e4 : deg2rad (-90 : ℝ) = -(Real.pi / 2) := by
        unfold deg2rad
        field_simp
        ring
      rw [e1, e2, e3, e4, Real.sin_neg, Real.sin_pi_div_two, Real.sin_zero,
          Real.cos_pi_div_two]
      ring
    have hind : ¬arc_indeterminate 90 0 (-90) 0 := by
      rintro (hx | hx) <;> rw [hhav] at hx <;> norm_num at hx
    unfold haversine
    rw [if_neg hrange, if_neg hind]
    dsimp only
    rw [hhav]
    have hs1 : Real.sqrt 1 = 1 := Real.sqrt_one
    have hs0 : Real.sqrt (1 - 1) = 0 := by
      norm_num [Real.sqrt_zero]
    rw [hs1, hs0]
    have hat : atan2 1 0 = Real.pi / 2 := by
      unfold atan2
      rw [if_neg (lt_irrefl (0 : ℝ))]
      rw [if_neg (by rintro ⟨hx, -⟩; exact lt_irrefl (0 : ℝ) hx)]
      rw [if_neg (lt_irrefl (0 : ℝ))]
      rw [if_pos (zero_lt_one (α := ℝ))]
    rw [hat]
    unfold MAX_EARTH_DISTANCE
    ring

/-- C1 witness: an out-of-range latitude yields the range sentinel. -/
theorem haversine_spec_witness : haversine 91 0 0 0 = -1 :=
  (haversine_spec 91 0 0 0).1 (by left; rw [abs_of_pos] <;> norm_num)

/-! Range of the computed spherical bearing. -/

theorem bearing_expr_mem (a : ℝ) (h1 : -Real.pi < a) (h2 : a ≤ Real.pi) :
    0 ≤ cfmod (rad2deg a + 360) 360 ∧ cfmod (rad2deg a + 360) 360 < 360 := by
  have hpi : 0 < Real.pi := Real.pi_pos
  have hd : rad2deg a ≤ 180 := by
    unfold rad2deg
    calc a * (180 / Real.pi) ≤ Real.pi * (180 / Real.pi) :=
          mul_le_mul_of_nonneg_right h2 (by positivity)
      _ = 180 := by field_simp
  have hd2 : -180 < rad2deg a := by
    unfold rad2deg
    have hlt : -Real.pi * (180 / Real.pi) < a * (180 / Real.pi) :=
      mul_lt_mul_of_pos_right h1 (by positivity)
    calc (-180 : ℝ) = -Real.pi * (180 / Real.pi) := by
          field_simp
          ring
      _ < a * (180 / Real.pi) := hlt
  exact cfmod_nonneg_lt (by linarith) (by norm_num)

theorem initial_bearing_mem (lat1 lon1 lat2 lon2 : ℝ)
    (hr : ¬(90 < |lat1| ∨ 90 < |lat2| ∨ 180 < |lon1| ∨ 180 < |lon2|))
    (hd : ¬(are_antipodal lat1 lon1 lat2 lon2 ∨ (lat1 = lat2 ∧ lon1 = lon2))) :
    0 ≤ initial_bearing lat1 lon1 lat2 lon2 ∧
    initial_bearing lat1 lon1 lat2 lon2 < 360 := by
  unfold initial_bearing
  rw [if_neg hr, if_neg hd]
  dsimp only
  exact bearing_expr_mem _ (atan2_mem _ _).1 (atan2_mem _ _).2

/-- C7: `routepoint` propagates its constituents' failures — any
out-of-range coordinate, or an antipodal or coincident endpoint pair
(which makes the initial bearing undefined), yields failure status 1 with
the output locations untouched; for in-range non-degenerate endpoints it
succeeds with the composition of `initial_bearing`, the fraction-scaled
`haversine` distance, and the forward-position computation. -/
theorem routepoint_spec (lat1 lon1 lat2 lon2 fracdist : ℝ) (out : ℝ × ℝ) :
    ((90 < |lat1| ∨ 90 < |lat2| ∨ 180 < |lon1| ∨ 180 < |lon2|) →
      routepoint lat1 lon1 lat2 lon2 fracdist out = (1, out)) ∧
    (¬(90 < |lat1| ∨ 90 < |lat2| ∨ 180 < |lon1| ∨ 180 < |lon2|) →
      ((are_antipodal lat1 lon1 lat2 lon2 ∨ (lat1 = lat2 ∧ lon1 = lon2)) →
        routepoint lat1 lon1 lat2 lon2 fracdist out = (1, out)) ∧
      (¬(are_antipodal lat1 lon1 lat2 lon2 ∨ (lat1 = lat2 ∧ lon1 = lon2)) →
        routepoint lat1 lon1 lat2 lon2 fracdist out =
          (0, bearing_position_calc lat1 lon1
                (initial_bearing lat1 lon1 lat2 lon2)
                (haversine lat1 lon1 lat2 lon2 * fracdist)))) := by
  constructor
  · intro h
    have hib : initial_bearing lat1 lon1 lat2 lon2 = -1 := by
      unfold initial_bearing
      rw [if_pos h]
    unfold routepoint bearing_position
    rw [hib]
    rw [if_pos (by right; right; left; norm_num)]
  · intro hr
    constructor
    · intro hd
      have hib : initial_bearing lat1 lon1 lat2 lon2 = -2 := by
        unfold initial_bearing
        rw [if_neg hr, if_pos hd]
      unfold routepoint bearing_position
      rw [hib]
      rw [if_pos (by right; right; left; norm_num)]
    · intro hd
      obtain ⟨hb0, hb360⟩ := initial_bearing_mem lat1 lon1 lat2 lon2 hr hd
      have hr' := hr
      push_neg at hr'
      unfold routepoint bearing_position
      rw [if_neg (by
        push_neg
        exact ⟨hr'.1, hr'.2.2.1, hb0, by linarith⟩)]

/-- C7 witness: an out-of-range first latitude fails and leaves the
previous output contents `(5, 6)` unchanged. -/
theorem routepoint_spec_witness :
    routepoint 91 0 0 0 (1 / 2) (5, 6) = (1, (5, 6)) :=
  (routepoint_spec 91 0 0 0 (1 / 2) (5, 6)).1
    (by left; rw [abs_of_pos] <;> norm_num)
